import Mathlib

/-!
Verification of the vkgram update-acquisition and dispatch engine.

The definitions below are a shallow embedding of the Python sources
(`vkgram/types.py`, `vkgram/filters.py`, `vkgram/handlers.py`,
`vkgram/bot.py`, `vkgram/utils.py`).  Python strings are modelled as
`List Char`, Python floats (event-loop timestamps) as integers (ticks at
some fixed sub-millisecond resolution; the algorithms only subtract and
compare, which is resolution independent), and fallible Python code as
`Except String`.  Async callbacks are modelled as explicit functions; the
lock discipline of the source serialises every stateful operation the
claims touch, so each one is embedded as a pure state transformer.
-/

set_option autoImplicit false

namespace Vkgram

/-- Python `str`, modelled as its sequence of characters. -/
abbrev Str := List Char

/-- Conversion from a Lean string literal to the `Str` model. -/
def ofString (s : String) : Str := s.toList

/-- Python `str.lower()` (faithful on ASCII, which is all the sources use). -/
def pyLower (s : Str) : Str := s.map Char.toLower

/-- Python `text.startswith(c)` for a single-character prefix. -/
def startsWithChar (c : Char) (s : Str) : Bool :=
  match s with
  | [] => false
  | d :: _ => d == c

/-- Accumulator loop implementing Python `str.split()` (split on runs of
whitespace, discarding empty pieces).  `acc` holds the characters of the
token currently being read, in reverse. -/
def pySplitAux : Str → Str → List Str
  | [], acc => if acc.isEmpty then [] else [acc.reverse]
  | c :: cs, acc =>
    if c.isWhitespace then
      if acc.isEmpty then pySplitAux cs [] else acc.reverse :: pySplitAux cs []
    else pySplitAux cs (c :: acc)

/-- Python `text.split()` with no separator argument. -/
def pySplit (s : Str) : List Str := pySplitAux s []

/-- Python `pat in hay` substring test. -/
def strContains (hay pat : Str) : Bool :=
  hay.tails.any fun t => pat.isPrefixOf t

/-- Attachment dict: the filters only access `att.get('type')`, which is
absent (`None`) when the key is missing. -/
structure Attachment where
  ty : Option Str
deriving DecidableEq, Repr

/-- The `Message` dataclass of `types.py`. -/
structure Msg where
  id : Int
  from_id : Int
  peer_id : Int
  text : Str
  date : Int
  attachments : List Attachment
  payload : Option Str
deriving DecidableEq, Repr

/-- The `Update` dataclass of `types.py` (generic, non-message event).
Its `object` payload is opaque to every filter, so it is not modelled. -/
structure Upd where
  ty : Str
  group_id : Int
  event_id : Str
deriving DecidableEq, Repr

/-- The `Union[Message, Update]` argument every `Filter.check` receives. -/
inductive Event where
  | msg (m : Msg)
  | upd (u : Upd)
deriving DecidableEq, Repr

/-- The `Filter.check` interface of `filters.py`: an async predicate over an
event.  Python exceptions are modelled by the `Except String` result; the
`bot` argument is never inspected by any filter, so it is dropped. -/
def Pred : Type := Event → Except String Bool

namespace CommandFilter

/-- `CommandFilter.check` (filters.py:20-29).  `text.split()[0]` is a
fallible indexing operation, embedded as a possible `IndexError`. -/
def check (commands : List Str) : Pred := fun update =>
  match update with
  | .upd _ => pure false
  | .msg m =>
    let text := m.text
    if !(startsWithChar '/' text) then pure false
    else
      match pySplit text with
      | [] => Except.error "IndexError"
      | w :: _ => pure ((commands.map pyLower).contains (pyLower (w.drop 1)))

end CommandFilter

/-- The two construction-time modes of `TextFilter`: a list of candidate
substrings, or a compiled regular expression (abstracted as its boolean
search function on the message text). -/
inductive TextSpec where
  | plain (texts : List Str)
  | pattern (search : Str → Bool)

namespace TextFilter

/-- `TextFilter.check` (filters.py:38-53). -/
def check (t : TextSpec) (ignoreCase : Bool) : Pred := fun update =>
  match update with
  | .upd _ => pure false
  | .msg m =>
    let messageText := m.text
    match t with
    | .pattern search => pure (search messageText)
    | .plain texts =>
      let messageText := if ignoreCase then pyLower messageText else messageText
      let texts := if ignoreCase then texts.map pyLower else texts
      pure (texts.any fun text => strContains messageText text)

end TextFilter

namespace StateFilter

/-- `StateFilter.check` (filters.py:61-64): a placeholder that always
passes. -/
def check (_states : List Str) : Pred := fun _ => pure true

end StateFilter

namespace ChatTypeFilter

/-- `ChatTypeFilter.check` (filters.py:72-80). -/
def check (chatType : Str) : Pred := fun update =>
  match update with
  | .upd _ => pure false
  | .msg m =>
    if chatType == ofString "private" then pure (m.peer_id == m.from_id)
    else if chatType == ofString "group" then pure (m.peer_id != m.from_id)
    else pure false

end ChatTypeFilter

namespace UserFilter

/-- `UserFilter.check` (filters.py:88-91). -/
def check (userIds : List Int) : Pred := fun update =>
  match update with
  | .msg m => pure (userIds.contains m.from_id)
  | .upd _ => pure false

end UserFilter

namespace ContentTypeFilter

/-- `ContentTypeFilter.check` (filters.py:99-112). -/
def check (contentType : Str) : Pred := fun update =>
  match update with
  | .upd _ => pure false
  | .msg m =>
    if contentType == ofString "text" then
      pure (!m.text.isEmpty && m.text.any fun c => !c.isWhitespace)
    else if contentType == ofString "attachment" then
      pure (!m.attachments.isEmpty)
    else if contentType == ofString "sticker" then
      pure (m.attachments.any fun att => att.ty == some (ofString "sticker"))
    else if contentType == ofString "photo" then
      pure (m.attachments.any fun att => att.ty == some (ofString "photo"))
    else pure false

end ContentTypeFilter

namespace AndFilter

/-- `AndFilter.check` (filters.py:121-122): Python's `all(...)` over a lazy
generator, so evaluation stops at the first child returning `False` and a
child's exception propagates when it is reached. -/
def check (children : List Pred) : Pred := fun update =>
  match children with
  | [] => pure true
  | p :: ps => do
    let b ← p update
    if b then check ps update else pure false

end AndFilter

namespace OrFilter

/-- `OrFilter.check` (filters.py:130-131): Python's `any(...)` over a lazy
generator. -/
def check (children : List Pred) : Pred := fun update =>
  match children with
  | [] => pure false
  | p :: ps => do
    let b ← p update
    if b then pure true else check ps update

end OrFilter

namespace NotFilter

/-- `NotFilter.check` (filters.py:139-140). -/
def check (child : Pred) : Pred := fun update => do
  let b ← child update
  pure (!b)

end NotFilter

namespace Handler

/-- `Handler.check` (handlers.py:12-17): returns `False` at the first
filter that rejects, `True` when every filter passes; a filter's exception
propagates. -/
def check (filters : List Pred) (update : Event) : Except String Bool :=
  match filters with
  | [] => pure true
  | p :: ps => do
    let b ← p update
    if b then check ps update else pure false

end Handler

/-- One registered message-handler binding of the `Dispatcher`
(bot.py:231-232): the callback paired with its filter tuple.  The
callback's behaviour on a message is either normal completion or a raised
exception, modelled by `Except`. -/
structure MBinding where
  run : Msg → Except String Unit
  filters : List Pred

namespace Dispatcher

/-- `Dispatcher._check_filters` (bot.py:263-266).  The body is the literal
source: a stub that ignores both arguments and returns `True`. -/
def checkFilters (_message : Msg) (_filters : List Pred) : Bool := true

/-- Loop body of `Dispatcher._process_message` (bot.py:253-261), carrying
the index of the current binding.  Returns the indices of the callbacks
that were invoked, in invocation order, together with the logged error
messages.  The per-iteration `try/except` is embedded by the `.error`
branch: the error is recorded and iteration continues, so the function is
total rather than `Except`-valued. -/
def processMessageFrom (message : Msg) (i : Nat) :
    List MBinding → List Nat × List String
  | [] => ([], [])
  | b :: rest =>
    let r := processMessageFrom message (i + 1) rest
    if checkFilters message b.filters then
      match b.run message with
      | .ok _ => (i :: r.1, r.2)
      | .error e => (i :: r.1, e :: r.2)
    else r

/-- `Dispatcher._process_message` (bot.py:253-261). -/
def processMessage (handlers : List MBinding) (message : Msg) :
    List Nat × List String :=
  processMessageFrom message 0 handlers

end Dispatcher

/-- A raw update dict as fetched from the long-poll server: its `type`
string and, when the nested keys `object.message` are present, the decoded
message payload. -/
structure RawUpdate where
  ty : Str
  messageObj : Option Msg
deriving DecidableEq, Repr

/-- What a callback receives from `Dispatcher.process_update`: either the
raw update dict or the decoded `Message` object. -/
inductive Payload where
  | raw (u : RawUpdate)
  | decoded (m : Msg)
deriving DecidableEq, Repr

/-- One callback invocation performed while processing an update: an
event-handler invocation (identified by the callback's id in the registry)
or a message-handler invocation (identified by its registration index). -/
inductive Inv where
  | evt (handlerId : Nat) (p : Payload)
  | msgH (index : Nat) (p : Payload)
deriving DecidableEq, Repr

namespace Dispatcher

/-- `Dispatcher.process_update` (bot.py:239-251).  `event_handlers` models
the dict from type string to list of registered callbacks (callbacks are
identified by numeric ids).  The `update['object']['message']` access is
fallible (`KeyError` on a malformed `message_new` update).  Returns the
invocation list (event-handler tasks first, as the source spawns them
first) and the error log from message processing. -/
def processUpdate (eventHandlers : List (Str × List Nat))
    (messageHandlers : List MBinding) (update : RawUpdate) :
    Except String (List Inv × List String) :=
  let evtInvs :=
    match eventHandlers.find? (fun p => p.1 == update.ty) with
    | some p => p.2.map fun h => Inv.evt h (.raw update)
    | none => []
  if update.ty == ofString "message_new" then
    match update.messageObj with
    | none => Except.error "KeyError"
    | some message =>
      let r := processMessage messageHandlers message
      pure (evtInvs ++ r.1.map (fun i => Inv.msgH i (.decoded message)), r.2)
  else pure (evtInvs, [])

end Dispatcher

namespace HandlerManager

/-- `HandlerManager.process_message` together with `MessageHandler.handle`
(handlers.py:25-28, 57-60): each handler runs its `Handler.check` and, on
success, its callback.  There is no `try/except` here, so a callback's or
filter's exception propagates and aborts the remaining handlers.  Returns
the indices of the callbacks that ran. -/
def processMessageFrom (message : Msg) (i : Nat) :
    List MBinding → Except String (List Nat)
  | [] => pure []
  | b :: rest => do
    let matched ← Handler.check b.filters (.msg message)
    if matched then
      b.run message
      let r ← processMessageFrom message (i + 1) rest
      pure (i :: r)
    else
      processMessageFrom message (i + 1) rest

/-- `HandlerManager.process_message` (handlers.py:57-60). -/
def processMessage (handlers : List MBinding) (message : Msg) :
    Except String (List Nat) :=
  processMessageFrom message 0 handlers

end HandlerManager

/-- Construction parameters of `RateLimiter` (utils.py:11-15).  Event-loop
times are integer ticks at a fixed sub-millisecond resolution; `acquire`
only subtracts and compares times, so the embedding is resolution
independent. -/
structure RateLimiter where
  max_requests : Nat
  period : Int
deriving DecidableEq, Repr

namespace RateLimiter

/-- `RateLimiter.acquire` (utils.py:17-33), run under the limiter's lock.
Input: the stored timestamp list and `now`, the event-loop time at which
the caller holds the lock.  Output: the new stored list and the event-loop
time at which `acquire` returns (after the conditional sleep).  The source
evicts entries older than `period`, then, when the list is full, sleeps
until the oldest entry expires, pops it, and appends the `now` read
*before* the sleep. -/
def acquire (rl : RateLimiter) (requests : List Int) (now : Int) :
    List Int × Int :=
  let requests := requests.filter fun reqTime => now - reqTime < rl.period
  if rl.max_requests ≤ requests.length then
    let waitTime := rl.period - (now - requests.headD 0)
    let done := if 0 < waitTime then now + waitTime else now
    (requests.tail ++ [now], done)
  else
    (requests ++ [now], now)

/-- Sequential run of `acquire` calls: `arrivals` lists the event-loop
time at which each caller obtains the lock.  Returns the final stored list
and the completion time of every call, in order. -/
def runTrace (rl : RateLimiter) (requests : List Int) :
    List Int → List Int × List Int
  | [] => (requests, [])
  | t :: ts =>
    let step := rl.acquire requests t
    let rest := rl.runTrace step.1 ts
    (rest.1, step.2 :: rest.2)

/-- A trace is sequentially valid when arrival times are nondecreasing and
each caller obtains the lock no earlier than the previous call returned
(the lock is held across the sleep, so this models any real schedule). -/
def seqValid (rl : RateLimiter) (requests : List Int) : List Int → Bool
  | [] => true
  | t :: ts =>
    let step := rl.acquire requests t
    (match ts with
     | [] => true
     | t' :: _ => decide (t ≤ t') && decide (step.2 ≤ t')) &&
    rl.seqValid step.1 ts

end RateLimiter

/-- Default capacity of the bot's update queue (bot.py:44). -/
def queueCapacityDefault : Nat := 1000

/-- `asyncio.Queue.put_nowait` on a queue of capacity `cap`: raises
`QueueFull` when the queue is at (or beyond) capacity, otherwise appends. -/
def putNowait {α : Type} (cap : Nat) (q : List α) (item : α) :
    Except String (List α) :=
  if cap ≤ q.length then Except.error "QueueFull" else pure (q ++ [item])

/-- The enqueue loop of `VKgramBot._fetch_updates` (bot.py:204-208): offer
each event of the batch with `put_nowait`; on `QueueFull`, `break` —
dropping the remaining events of the batch.  The `except ... break`
makes the loop total, so the embedding returns a plain list. -/
def enqueueBatch {α : Type} (cap : Nat) (q : List α) : List α → List α
  | [] => q
  | u :: us =>
    match putNowait cap q u with
    | .ok q2 => enqueueBatch cap q2 us
    | .error _ => q

/-- Long-poll session state (bot.py:38-40, 79-81): server URL, session
key, and the cursor `ts`. -/
structure PollSession where
  server : Str
  key : Str
  ts : Int
deriving DecidableEq, Repr

/-- Outcome of one long-poll fetch request, after JSON decoding: a
successful batch carrying the fresh cursor, a `failed` response with its
subcode (subcode 1 carries a server-provided fresh `ts`), or a transport
error raised during the request. -/
inductive FetchResult where
  | ok (ts : Int) (updates : List RawUpdate)
  | failed1 (freshTs : Int)
  | failed2
  | failed3
  | transportError (msg : String)
deriving Repr

/-- Modelled from the spec: `_handle_failure` is invoked on the `failed`
branch of `VKgramBot._fetch_updates` (bot.py:199) but its definition is
absent from the source tree.  Following §4.5, the recovery action depends
on the failure subcode: subcode 1 reissues with the server-provided fresh
cursor; subcode 2 re-runs the full negotiation (adopting the freshly
negotiated session wholesale); subcode 3 (data loss) resynchronises the
cursor from a fresh negotiation and surfaces a warning that messages may
have been missed.  `negotiated` is the session a renewed
`groups.getLongPollServer` call returns. -/
def handleFailure (negotiated : PollSession) (s : PollSession) :
    FetchResult → PollSession × List String
  | .failed1 freshTs => ({ s with ts := freshTs }, [])
  | .failed2 => (negotiated, [])
  | .failed3 =>
      (negotiated, ["warning: messages may have been missed"])
  | _ => (s, [])

/-- One iteration of the poll loop, `VKgramBot._fetch_updates`
(bot.py:190-212) with the failure branch spec-modelled by
`handleFailure`.  On success the cursor advances to the returned `ts` and
the batch is enqueued with the drop-on-full policy; on a `failed` response
the session is repaired and nothing is enqueued; a transport error is
caught and logged (the backoff sleep has no observable state).  The
enclosing `try/except` makes the iteration total: it never propagates an
exception, so the loop never crashes. -/
def fetchStep (negotiated : PollSession) (cap : Nat) (s : PollSession)
    (q : List RawUpdate) : FetchResult →
    PollSession × List RawUpdate × List String
  | .ok ts updates => ({ s with ts := ts }, enqueueBatch cap q updates, [])
  | .failed1 freshTs =>
      let r := handleFailure negotiated s (.failed1 freshTs)
      (r.1, q, r.2)
  | .failed2 =>
      let r := handleFailure negotiated s .failed2
      (r.1, q, r.2)
  | .failed3 =>
      let r := handleFailure negotiated s .failed3
      (r.1, q, r.2)
  | .transportError msg => (s, q, ["Long Poll error: " ++ msg])

lemma startsWithChar_eq_true {c : Char} {s : Str} (h : startsWithChar c s = true) :
    ∃ rest, s = c :: rest := by
  cases s with
  | nil => simp [startsWithChar] at h
  | cons d rest =>
    refine ⟨rest, ?_⟩
    simp only [startsWithChar, beq_iff_eq] at h
    rw [h]

lemma pySplitAux_ne_nil (cs : Str) : ∀ acc : Str, acc ≠ [] →
    pySplitAux cs acc ≠ [] := by
  induction cs with
  | nil =>
    intro acc hacc
    have hne : acc.isEmpty = false := by
      simpa [List.isEmpty_iff] using hacc
    simp [pySplitAux, hne]
  | cons c cs ih =>
    intro acc hacc
    have hne : acc.isEmpty = false := by
      simpa [List.isEmpty_iff] using hacc
    by_cases hws : c.isWhitespace
    · simp [pySplitAux, hws, hne]
    · simp only [pySplitAux, hws, Bool.false_eq_true, if_false]
      exact ih (c :: acc) (by simp)

lemma except_bind_ok {ε α β : Type} (a : α) (f : α → Except ε β) :
    (Except.ok a >>= f) = f a := rfl

lemma except_bind_error {ε α β : Type} (er : ε) (f : α → Except ε β) :
    ((Except.error er : Except ε α) >>= f) = Except.error er := rfl

lemma except_pure {ε α : Type} (a : α) : (pure a : Except ε α) = Except.ok a :=
  rfl

/-- Claim C7: for every list of child predicates and every event,
`AndFilter.check` returns true iff every child returns true,
`OrFilter.check` returns true iff at least one child returns true, and
`NotFilter.check` returns true iff the child returns false — for all
combinations of the children's truth values (i.e. whenever each child
evaluates to some boolean). -/
theorem claim7_composite_filter_semantics (ps : List Pred) (c : Pred)
    (e : Event) (htotal : ∀ q ∈ ps, ∃ b, q e = Except.ok b) :
    (AndFilter.check ps e = .ok true ↔ ∀ q ∈ ps, q e = .ok true) ∧
    (OrFilter.check ps e = .ok true ↔ ∃ q ∈ ps, q e = .ok true) ∧
    (NotFilter.check c e = .ok true ↔ c e = .ok false) := by
  refine ⟨?_, ?_, ?_⟩
  · clear htotal
    induction ps with
    | nil =>
      exact ⟨fun _ q hq => absurd hq (List.not_mem_nil q), fun _ => rfl⟩
    | cons p ps ih =>
      cases hq : p e with
      | error err =>
        have hand : AndFilter.check (p :: ps) e = Except.error err := by
          show (p e >>= fun b =>
            if b then AndFilter.check ps e else pure false) = _
          rw [hq]
          rfl
        constructor
        · intro h
          rw [hand] at h
          exact Except.noConfusion h
        · intro h
          have hcontra := h p (List.mem_cons_self p ps)
          rw [hq] at hcontra
          exact Except.noConfusion hcontra
      | ok b =>
        cases b with
        | false =>
          have hand : AndFilter.check (p :: ps) e = Except.ok false := by
            show (p e >>= fun b =>
              if b then AndFilter.check ps e else pure false) = _
            rw [hq]
            rfl
          constructor
          · intro h
            rw [hand] at h
            exact Bool.noConfusion (Except.ok.inj h)
          · intro h
            have hcontra := h p (List.mem_cons_self p ps)
            rw [hq] at hcontra
            exact Bool.noConfusion (Except.ok.inj hcontra)
        | true =>
          have hand : AndFilter.check (p :: ps) e = AndFilter.check ps e := by
            show (p e >>= fun b =>
              if b then AndFilter.check ps e else pure false) = _
            rw [hq]
            rfl
          rw [hand, ih]
          constructor
          · intro h q hmem
            rcases List.mem_cons.mp hmem with h1 | h2
            · rw [h1, hq]
            · exact h q h2
          · intro h q hmem
            exact h q (List.mem_cons_of_mem _ hmem)
  · induction ps with
    | nil =>
      constructor
      · intro h
        exact Bool.noConfusion (Except.ok.inj h)
      · rintro ⟨q, hmem, _⟩
        exact absurd hmem (List.not_mem_nil q)
    | cons p ps ih =>
      rcases htotal p (List.mem_cons_self p ps) with ⟨b, hq⟩
      have htotal2 : ∀ q ∈ ps, ∃ b2, q e = Except.ok b2 := fun q hmem =>
        htotal q (List.mem_cons_of_mem _ hmem)
      cases b with
      | true =>
        have hor : OrFilter.check (p :: ps) e = Except.ok true := by
          show (p e >>= fun b =>
            if b then pure true else OrFilter.check ps e) = _
          rw [hq]
          rfl
        exact ⟨fun _ => ⟨p, List.mem_cons_self p ps, hq⟩, fun _ => hor⟩
      | false =>
        have hor : OrFilter.check (p :: ps) e = OrFilter.check ps e := by
          show (p e >>= fun b =>
            if b then pure true else OrFilter.check ps e) = _
          rw [hq]
          rfl
        rw [hor, ih htotal2]
        constructor
        · rintro ⟨q, hmem, hok⟩
          exact ⟨q, List.mem_cons_of_mem _ hmem, hok⟩
        · rintro ⟨q, hmem, hok⟩
          rcases List.mem_cons.mp hmem with h1 | h2
          · rw [h1] at hok; rw [hok] at hq
            exact absurd (Except.ok.inj hq) Bool.noConfusion
          · exact ⟨q, h2, hok⟩
  · cases hq : c e with
    | error err =>
      have hnot : NotFilter.check c e = Except.error err := by
        show (c e >>= fun b => pure (!b)) = _
        rw [hq]
        rfl
      constructor
      · intro h
        rw [hnot] at h
        exact Except.noConfusion h
      · intro h
        exact Except.noConfusion h
    | ok b =>
      have hnot : NotFilter.check c e = Except.ok (!b) := by
        show (c e >>= fun b => pure (!b)) = _
        rw [hq]
        rfl
      cases b with
      | false => exact ⟨fun _ => rfl, fun _ => hnot⟩
      | true =>
        constructor
        · intro h
          rw [hnot] at h
          exact Bool.noConfusion (Except.ok.inj h)
        · intro h
          exact Bool.noConfusion (Except.ok.inj h)

theorem claim7_witness :
    (∀ q ∈ ([] : List Pred), ∃ b, q (.upd ⟨ofString "x", 0, ofString "e"⟩) =
      Except.ok b) ∧
    (AndFilter.check [] (.upd ⟨ofString "x", 0, ofString "e"⟩) = .ok true ↔
      ∀ q ∈ ([] : List Pred),
        q (.upd ⟨ofString "x", 0, ofString "e"⟩) = .ok true) :=
  ⟨fun q hq => absurd hq (List.not_mem_nil q),
   (claim7_composite_filter_semantics [] (StateFilter.check [])
      (.upd ⟨ofString "x", 0, ofString "e"⟩)
      (fun q hq => absurd hq (List.not_mem_nil q))).1⟩

/-- Claim C9: every Message-expecting predicate variant (Command,
TextMatch in both of its modes, ChatType, UserIdSet, ContentType), applied
to a non-Message event, returns `false` and raises no exception (the
result is `Except.ok false`, never `Except.error`). -/
theorem claim9_nonmessage_returns_false :
    (∀ (u : Upd) (commands : List Str),
      CommandFilter.check commands (.upd u) = .ok false) ∧
    (∀ (u : Upd) (t : TextSpec) (ignoreCase : Bool),
      TextFilter.check t ignoreCase (.upd u) = .ok false) ∧
    (∀ (u : Upd) (chatType : Str),
      ChatTypeFilter.check chatType (.upd u) = .ok false) ∧
    (∀ (u : Upd) (userIds : List Int),
      UserFilter.check userIds (.upd u) = .ok false) ∧
    (∀ (u : Upd) (contentType : Str),
      ContentTypeFilter.check contentType (.upd u) = .ok false) :=
  ⟨fun _ _ => rfl, fun _ _ _ => rfl, fun _ _ => rfl, fun _ _ => rfl,
   fun _ _ => rfl⟩

/-- A message whose only relevant field is its text, for concrete test
scenarios. -/
def mkMsg (text : String) : Msg :=
  ⟨1, 2, 3, ofString text, 0, [], none⟩

/-- Claim C8: `CommandFilter.check` on a Message returns true iff the text
begins with the `'/'` prefix character and the first whitespace-delimited
token, with the prefix stripped, matches one of the configured commands
case-insensitively; in particular text `"/start hello"` with commands
`["start", "help"]` gives true, `"start"` gives false, and `"/Start"`
gives true. -/
theorem claim8_command_filter_semantics :
    (∀ (commands : List Str) (m : Msg),
      CommandFilter.check commands (.msg m) = .ok true ↔
        startsWithChar '/' m.text = true ∧
        ∃ w ws, pySplit m.text = w :: ws ∧
          ∃ c ∈ commands, pyLower (w.drop 1) = pyLower c) ∧
    CommandFilter.check [ofString "start", ofString "help"]
      (.msg (mkMsg "/start hello")) = .ok true ∧
    CommandFilter.check [ofString "start", ofString "help"]
      (.msg (mkMsg "start")) = .ok false ∧
    CommandFilter.check [ofString "start", ofString "help"]
      (.msg (mkMsg "/Start")) = .ok true := by
  refine ⟨?_, rfl, rfl, rfl⟩
  intro commands m
  cases hsw : startsWithChar '/' m.text with
  | false =>
    have hchk : CommandFilter.check commands (.msg m) = Except.ok false := by
      simp [CommandFilter.check, hsw, except_pure]
    constructor
    · intro h
      rw [hchk] at h
      exact Bool.noConfusion (Except.ok.inj h)
    · rintro ⟨hsw2, -⟩
      exact Bool.noConfusion hsw2
  | true =>
    obtain ⟨rest, hrest⟩ := startsWithChar_eq_true hsw
    have hws : ('/' : Char).isWhitespace = false := by decide
    have hsplit : pySplit m.text = pySplitAux rest ['/'] := by
      rw [hrest]
      simp [pySplit, pySplitAux, hws]
    cases hps : pySplitAux rest ['/'] with
    | nil => exact absurd hps (pySplitAux_ne_nil rest ['/'] (by simp))
    | cons w ws =>
      have hchk : CommandFilter.check commands (.msg m) =
          Except.ok ((commands.map pyLower).contains (pyLower (w.drop 1))) := by
        simp only [CommandFilter.check, hsw, Bool.not_true, Bool.false_eq_true,
          if_false, hsplit, hps, except_pure]
      rw [hchk]
      constructor
      · intro h
        have hcon : (commands.map pyLower).contains (pyLower (w.drop 1)) =
            true := Except.ok.inj h
        rcases List.mem_map.mp (List.elem_iff.mp hcon) with ⟨c2, hc2, heq⟩
        exact ⟨rfl, w, ws, by rw [hsplit, hps], c2, hc2, heq.symm⟩
      · rintro ⟨-, w2, ws2, hps2, c2, hc2, heq⟩
        rw [hsplit, hps] at hps2
        injection hps2 with hw _
        have hmem : pyLower (w.drop 1) ∈ commands.map pyLower :=
          List.mem_map.mpr ⟨c2, hc2, by rw [← heq, hw]⟩
        exact congrArg Except.ok (List.elem_iff.mpr hmem)

/-- The error carried by a callback outcome, when there is one (the value
the dispatcher's `except` branch logs). -/
def errOf : Except String Unit → Option String
  | .error e => some e
  | .ok _ => none

lemma processMessageFrom_spec (m : Msg) :
    ∀ (handlers : List MBinding) (i : Nat),
      Dispatcher.processMessageFrom m i handlers =
        (List.range' i handlers.length,
         handlers.filterMap fun b => errOf (b.run m)) := by
  intro handlers
  induction handlers with
  | nil => intro i; rfl
  | cons b rest ih =>
    intro i
    show (let r := Dispatcher.processMessageFrom m (i + 1) rest
      if Dispatcher.checkFilters m b.filters then
        match b.run m with
        | .ok _ => (i :: r.1, r.2)
        | .error e => (i :: r.1, e :: r.2)
      else r) = _
    rw [ih (i + 1)]
    cases hr : b.run m with
    | ok u =>
      cases u
      simp [Dispatcher.checkFilters, List.filterMap_cons, hr, errOf,
        List.range']
    | error e =>
      simp [Dispatcher.checkFilters, List.filterMap_cons, hr, errOf,
        List.range']

/-- Claim C5: during `Dispatcher._process_message`, every registered
binding's callback is invoked exactly once, in registration order, no
matter which callbacks raise: a raised error is caught and logged (the
logged errors are exactly those of the raising callbacks, in order) and
never aborts the remaining bindings.  The embedding of the per-binding
`try/except` makes `processMessage` a total function rather than an
`Except`-valued one, so no callback error can propagate to the caller
(the worker loop). -/
theorem claim5_callback_errors_isolated (handlers : List MBinding) (m : Msg) :
    (Dispatcher.processMessage handlers m).1 = List.range handlers.length ∧
    (Dispatcher.processMessage handlers m).2 =
      handlers.filterMap fun b => errOf (b.run m) := by
  unfold Dispatcher.processMessage
  rw [processMessageFrom_spec m handlers 0, List.range_eq_range']
  exact ⟨rfl, rfl⟩

/-- A callback that completes normally, for the concrete dispatch
scenarios. -/
def cbOk : Msg → Except String Unit := fun _ => .ok ()

/-- Two bindings for the message category: the first unfiltered, the
second guarded by a `CommandFilter` that rejects the message `"hello"`
(its predicate list is not satisfied). -/
def demoBindings : List MBinding :=
  [⟨cbOk, []⟩, ⟨cbOk, [CommandFilter.check [ofString "start"]]⟩]

/-- Claim C1 (evaluation at the failing input): with two bindings for the
message category, the second carrying a predicate that fails on the
incoming message `"hello"`, `Dispatcher._process_message` invokes BOTH
callbacks — its `_check_filters` ignores the predicate list and returns
`True` — whereas the `Handler.check`-based hierarchy of `handlers.py`
invokes only the first callback, exactly once, as the claim demands. -/
theorem claim1_dispatcher_ignores_predicates :
    Dispatcher.processMessage demoBindings (mkMsg "hello") = ([0, 1], []) ∧
    HandlerManager.processMessage demoBindings (mkMsg "hello") =
      .ok [0] :=
  ⟨rfl, rfl⟩

/-- Claim C4: for every update and every registry, each invocation that
carries the decoded `Message` object targets a message-handler binding;
an event-handler (generic-update) binding only ever receives the raw
update dict, never the decoded Message — including when an event handler
is registered for the type string `"message_new"`. -/
theorem claim4_decoded_message_never_reaches_event_handlers
    (eventHandlers : List (Str × List Nat)) (messageHandlers : List MBinding)
    (update : RawUpdate) (out : List Inv × List String)
    (hout : Dispatcher.processUpdate eventHandlers messageHandlers update =
      .ok out)
    (h : Nat) (p : Payload) (hmem : Inv.evt h p ∈ out.1) :
    ∃ u2, p = Payload.raw u2 := by
  unfold Dispatcher.processUpdate at hout
  set evtInvs := (match eventHandlers.find? (fun q => q.1 == update.ty) with
    | some q => q.2.map fun hid => Inv.evt hid (.raw update)
    | none => []) with hevt
  have hevtRaw : ∀ inv ∈ evtInvs, inv = Inv.evt h p →
      ∃ u2, p = Payload.raw u2 := by
    intro inv hinv heq
    rw [hevt] at hinv
    rcases hfind : eventHandlers.find? (fun q => q.1 == update.ty) with
      _ | q
    · rw [hfind] at hinv
      exact absurd hinv (List.not_mem_nil inv)
    · rw [hfind] at hinv
      rcases List.mem_map.mp hinv with ⟨hid, _, hinv2⟩
      rw [← hinv2] at heq
      exact ⟨update, (Inv.evt.inj heq).2.symm⟩
  by_cases hty : (update.ty == ofString "message_new") = true
  · rw [if_pos hty] at hout
    rcases hobj : update.messageObj with _ | message
    · rw [hobj] at hout
      exact Except.noConfusion hout
    · rw [hobj] at hout
      have hout2 := Except.ok.inj hout
      rw [← hout2] at hmem
      rcases List.mem_append.mp hmem with hin | hin
      · exact hevtRaw _ hin rfl
      · rcases List.mem_map.mp hin with ⟨i, _, hinv2⟩
        exact absurd hinv2 (by intro hcontra; cases hcontra)
  · rw [if_neg hty] at hout
    have hout2 := Except.ok.inj hout
    rw [← hout2] at hmem
    exact hevtRaw _ hmem rfl

/-- An event handler registered for the raw type string `"message_new"`,
alongside one message binding, and a well-formed `message_new` update. -/
def demoRegistry : List (Str × List Nat) := [(ofString "message_new", [0])]

/-- The raw `message_new` update used in the concrete C4 scenario. -/
def demoRaw : RawUpdate := ⟨ofString "message_new", some (mkMsg "hi")⟩

theorem claim4_witness : ∃ u2, Payload.raw demoRaw = Payload.raw u2 :=
  claim4_decoded_message_never_reaches_event_handlers demoRegistry
    [⟨cbOk, []⟩] demoRaw
    ([Inv.evt 0 (.raw demoRaw), Inv.msgH 0 (.decoded (mkMsg "hi"))], [])
    rfl 0 (Payload.raw demoRaw) (by decide)

/-- Claim C6: enqueuing a fetched batch into the bounded queue never grows
the queue past its capacity, and once the queue is at capacity the
remaining events of the batch are dropped (the queue is returned
unchanged).  `enqueueBatch` is a total function — the `QueueFull`
exception of `put_nowait` is consumed by the `break`, so the enqueue step
raises nothing and cannot stall the fetch loop. -/
theorem claim6_bounded_queue_drops_overflow {α : Type} (cap : Nat)
    (q : List α) (batch : List α) (hq : q.length ≤ cap) :
    (enqueueBatch cap q batch).length ≤ cap ∧
    (cap ≤ q.length → enqueueBatch cap q batch = q) := by
  constructor
  · induction batch generalizing q with
    | nil => exact hq
    | cons u us ih =>
      show (match putNowait cap q u with
        | .ok q2 => enqueueBatch cap q2 us
        | .error _ => q).length ≤ cap
      unfold putNowait
      by_cases hfull : cap ≤ q.length
      · rw [if_pos hfull]
        exact hq
      · rw [if_neg hfull]
        have hlen : (q ++ [u]).length ≤ cap := by
          rw [List.length_append, List.length_singleton]
          omega
        exact ih (q ++ [u]) hlen
  · intro hfull
    cases batch with
    | nil => rfl
    | cons u us =>
      show (match putNowait cap q u with
        | .ok q2 => enqueueBatch cap q2 us
        | .error _ => q) = q
      unfold putNowait
      rw [if_pos hfull]

theorem claim6_witness :
    (enqueueBatch 2 ([] : List Nat) [10, 11, 12]).length ≤ 2 ∧
    (2 ≤ ([] : List Nat).length → enqueueBatch 2 ([] : List Nat) [10, 11, 12] = []) :=
  claim6_bounded_queue_drops_overflow 2 [] [10, 11, 12] (by decide)

/-- Claim C2: on every poll iteration whose fetch response carries a
`failed` code, the (spec-modelled) recovery adopts a fresh cursor — the
server-provided `ts` for subcode 1, the freshly negotiated session for
subcodes 2 and 3 (the data-loss subcode additionally surfacing a
warning) — so the next fetch request uses the fresh `ts`, not the stale
one; after a successful fetch the cursor is the returned value.
`fetchStep` is total, embedding the `try/except` that keeps the poll loop
from crashing. -/
theorem claim2_failed_response_recovery (negotiated s : PollSession)
    (cap : Nat) (q : List RawUpdate) (freshTs newTs : Int)
    (updates : List RawUpdate) :
    (fetchStep negotiated cap s q (.failed1 freshTs)).1.ts = freshTs ∧
    (fetchStep negotiated cap s q .failed2).1 = negotiated ∧
    (fetchStep negotiated cap s q .failed3).1.ts = negotiated.ts ∧
    (fetchStep negotiated cap s q .failed3).2.2 =
      ["warning: messages may have been missed"] ∧
    (fetchStep negotiated cap s q (.ok newTs updates)).1.ts = newTs :=
  ⟨rfl, rfl, rfl, rfl, rfl⟩

/-- Claim C3 (evaluation at the failing input): with `max_requests = 1`
and `period = 10`, three sequential `acquire` calls obtaining the lock at
times 0, 1 and 10 form a valid schedule (each call obtains the lock no
earlier than the previous call returned), yet they complete at times 0,
10 and 11 — and the window from just after time 1 to time 11, of length
exactly `period`, contains 2 completed acquisitions, exceeding
`max_requests = 1`.  The slip: after sleeping, `acquire` appends the
pre-sleep timestamp `now` instead of the admission time, so the next
caller under-waits. -/
theorem claim3_sliding_window_violated :
    RateLimiter.seqValid ⟨1, 10⟩ [] [0, 1, 10] = true ∧
    (RateLimiter.runTrace ⟨1, 10⟩ [] [0, 1, 10]).2 = [0, 10, 11] ∧
    ((RateLimiter.runTrace ⟨1, 10⟩ [] [0, 1, 10]).2.countP
      fun c => decide (1 < c) && decide (c ≤ 1 + (10 : Int))) = 2 ∧
    (⟨1, 10⟩ : RateLimiter).max_requests < 2 := by
  refine ⟨by decide, by decide, by decide, by decide⟩

lemma acquire_length_le (rl : RateLimiter) (requests : List Int) (now : Int)
    (hmax : 1 ≤ rl.max_requests)
    (hlen : requests.length ≤ rl.max_requests) :
    ((rl.acquire requests now).1).length ≤ rl.max_requests := by
  unfold RateLimiter.acquire
  have hfl : (requests.filter fun reqTime =>
      now - reqTime < rl.period).length ≤ requests.length :=
    List.length_filter_le _ _
  by_cases hfull : rl.max_requests ≤ (requests.filter fun reqTime =>
      now - reqTime < rl.period).length
  · rw [if_pos hfull]
    rw [List.length_append, List.length_tail, List.length_singleton]
    omega
  · rw [if_neg hfull]
    rw [List.length_append, List.length_singleton]
    omega

lemma runTrace_length_le (rl : RateLimiter) (hmax : 1 ≤ rl.max_requests) :
    ∀ (arrivals : List Int) (requests : List Int),
      requests.length ≤ rl.max_requests →
      ((rl.runTrace requests arrivals).1).length ≤ rl.max_requests := by
  intro arrivals
  induction arrivals with
  | nil => intro requests hlen; exact hlen
  | cons t ts ih =>
    intro requests hlen
    exact ih (rl.acquire requests t).1 (acquire_length_le rl requests t hmax hlen)

/-- Claim C10: for a rate limiter with `max_requests ≥ 1`, the stored
timestamp list never exceeds `max_requests` entries: one `acquire`
preserves the bound (eviction can only shrink the list, and the full
branch pops before appending), and every sequential run starting from the
empty list ends within the bound. -/
theorem claim10_timestamp_list_bounded (rl : RateLimiter)
    (requests : List Int) (now : Int) (arrivals : List Int)
    (hmax : 1 ≤ rl.max_requests)
    (hlen : requests.length ≤ rl.max_requests) :
    ((rl.acquire requests now).1).length ≤ rl.max_requests ∧
    ((rl.runTrace [] arrivals).1).length ≤ rl.max_requests :=
  ⟨acquire_length_le rl requests now hmax hlen,
   runTrace_length_le rl hmax arrivals [] (by simp)⟩

theorem claim10_witness :
    (((⟨1, 10⟩ : RateLimiter).acquire [5] 7).1).length ≤ 1 ∧
    (((⟨1, 10⟩ : RateLimiter).runTrace [] [0, 1, 10]).1).length ≤ 1 :=
  claim10_timestamp_list_bounded ⟨1, 10⟩ [5] 7 [0, 1, 10] (by decide)
    (by decide)

end Vkgram
